import Mathlib

/-!
# Verification of the ferrisfetch indexer/search core

Shallow embedding of the components of the ferrisfetch documentation
indexer that the specification's claims are about, together with proofs
settling each claim.  Each definition is a direct translation of the
corresponding Go function; external collaborators (the zstd codec, the
markdown block parser, the embedding/rerank provider and the HNSW search
call) are abstracted as parameters, exactly at the boundary where the
source calls into a third-party library.
-/

namespace FF

/-! ## SHA-256 (crypto/sha256 as used by cas.Write)

Word arithmetic is on `Nat` with explicit reduction modulo `2 ^ 32`.
-/

/-- 2^32 modulus used throughout the SHA-256 word arithmetic. -/
def w32 : Nat := 4294967296

def add32 (a b : Nat) : Nat := (a + b) % w32

def rotr32 (n x : Nat) : Nat := (x / 2 ^ n) + (x % 2 ^ n) * 2 ^ (32 - n)

def shr32 (n x : Nat) : Nat := x / 2 ^ n

def xor3 (a b c : Nat) : Nat := Nat.xor (Nat.xor a b) c

def bigSigma0 (x : Nat) : Nat := xor3 (rotr32 2 x) (rotr32 13 x) (rotr32 22 x)

def bigSigma1 (x : Nat) : Nat := xor3 (rotr32 6 x) (rotr32 11 x) (rotr32 25 x)

def smallSigma0 (x : Nat) : Nat := xor3 (rotr32 7 x) (rotr32 18 x) (shr32 3 x)

def smallSigma1 (x : Nat) : Nat := xor3 (rotr32 17 x) (rotr32 19 x) (shr32 10 x)

def chFn (x y z : Nat) : Nat := Nat.xor (Nat.land x y) (Nat.land (Nat.xor x 4294967295) z)

def majFn (x y z : Nat) : Nat := xor3 (Nat.land x y) (Nat.land x z) (Nat.land y z)

/-- The 64 SHA-256 round constants of FIPS 180-4, written in decimal. -/
def sha256K : List Nat :=
  [1116352408, 1899447441, 3049323471, 3921009573, 961987163,
   1508970993, 2453635748, 2870763221, 3624381080, 310598401,
   607225278, 1426881987, 1925078388, 2162078206, 2614888103,
   3248222580, 3835390401, 4022224774, 264347078, 604807628,
   770255983, 1249150122, 1555081692, 1996064986, 2554220882,
   2821834349, 2952996808, 3210313671, 3336571891, 3584528711,
   113926993, 338241895, 666307205, 773529912, 1294757372,
   1396182291, 1695183700, 1986661051, 2177026350, 2456956037,
   2730485921, 2820302411, 3259730800, 3345764771, 3516065817,
   3600352804, 4094571909, 275423344, 430227734, 506948616,
   659060556, 883997877, 958139571, 1322822218, 1537002063,
   1747873779, 1955562222, 2024104815, 2227730452, 2361852424,
   2428436474, 2756734187, 3204031479, 3329325298]

/-- The eight SHA-256 initial hash words of FIPS 180-4, in decimal. -/
def sha256H0 : List Nat :=
  [1779033703, 3144134277, 1013904242, 2773480762, 1359893119,
   2600822924, 528734635, 1541459225]

/-- Big-endian bytes of a value, given a byte width. -/
def beBytes : Nat → Nat → List Nat
  | 0, _ => []
  | n + 1, v => beBytes n (v / 256) ++ [v % 256]

/-- SHA-256 padding: 0x80, zeros to 56 mod 64, then the 64-bit big-endian bit length. -/
def sha256pad (msg : List Nat) : List Nat :=
  let z : Nat := (64 + 56 - ((msg.length + 1) % 64)) % 64
  msg ++ [128] ++ List.replicate z 0 ++ beBytes 8 (msg.length * 8)

/-- Split a byte list into 4-byte big-endian words. -/
def bytesToWords : List Nat → List Nat
  | b0 :: b1 :: b2 :: b3 :: rest => (((b0 * 256 + b1) * 256 + b2) * 256 + b3) :: bytesToWords rest
  | _ => []

/-- Split a word list into blocks of 16 words; the fuel bounds the loop. -/
def toBlocksFuel : Nat → List Nat → List (List Nat)
  | 0, _ => []
  | _, [] => []
  | fuel + 1, l => l.take 16 :: toBlocksFuel fuel (l.drop 16)

def toBlocks (l : List Nat) : List (List Nat) := toBlocksFuel l.length l

/-- One step of the message schedule, acting on the reversed schedule so far. -/
def wStep (acc : List Nat) : Nat :=
  add32 (add32 (smallSigma1 (acc.getD 1 0)) (acc.getD 6 0))
        (add32 (smallSigma0 (acc.getD 14 0)) (acc.getD 15 0))

/-- Extend the 16 block words to the full (reversed) 64-word schedule. -/
def extendSchedule : Nat → List Nat → List Nat
  | 0, acc => acc
  | n + 1, acc => extendSchedule n (wStep acc :: acc)

def messageSchedule (block : List Nat) : List Nat :=
  (extendSchedule 48 block.reverse).reverse

/-- One compression round; the state is the word list [a,b,c,d,e,f,g,h]. -/
def sha256round (st : List Nat) (k w : Nat) : List Nat :=
  match st with
  | [a, b, c, d, e, f, g, h] =>
    let t1 := add32 (add32 (add32 h (bigSigma1 e)) (add32 (chFn e f g) k)) w
    let t2 := add32 (bigSigma0 a) (majFn a b c)
    [add32 t1 t2, a, b, c, add32 d t1, e, f, g]
  | other => other

def sha256compress (hs : List Nat) (block : List Nat) : List Nat :=
  let ws := messageSchedule block
  let st := (sha256K.zip ws).foldl (fun s kw => sha256round s kw.1 kw.2) hs
  (hs.zip st).map (fun p => add32 p.1 p.2)

def sha256words (msg : List Nat) : List Nat :=
  (toBlocks (bytesToWords (sha256pad msg))).foldl sha256compress sha256H0

def sha256bytesOf (msg : List Nat) : List Nat :=
  (sha256words msg).flatMap (beBytes 4)

def hexDigit (n : Nat) : Char :=
  if n < 10 then Char.ofNat (48 + n) else Char.ofNat (87 + n)

def byteToHex (b : Nat) : List Char := [hexDigit (b / 16), hexDigit (b % 16)]

/-- Lowercase hex of a byte list, as a %x format of a digest produces. -/
def bytesToHex (bs : List Nat) : String :=
  String.mk (bs.flatMap byteToHex)

/-- UTF-8 bytes of one code point, as a Go byte-slice conversion of a string produces. -/
def utf8Bytes (c : Nat) : List Nat :=
  if c < 128 then [c]
  else if c < 2048 then [192 + c / 64, 128 + c % 64]
  else if c < 65536 then [224 + c / 4096, 128 + c / 64 % 64, 128 + c % 64]
  else [240 + c / 262144, 128 + c / 4096 % 64, 128 + c / 64 % 64, 128 + c % 64]

def strBytes (s : String) : List Nat :=
  s.data.flatMap (fun c => utf8Bytes c.toNat)

/-- Lowercase-hex SHA-256 of a string: the hash computed at cas.go line 28. -/
def sha256hex (s : String) : String :=
  bytesToHex (sha256bytesOf (strBytes s))

/-! ## Content-addressed store (internal/cas/cas.go)

The filesystem is a map from path to file content; the zstd codec is
abstracted as a pair of functions with a round-trip law, the boundary at
which cas.go calls the compress library.
-/

/-- Abstract compression codec standing for the zstd writer/reader pair. -/
structure Codec where
  comp : String → String
  decomp : String → Option String
  roundtrip : ∀ s, decomp (comp s) = some s

/-- The identity codec, for evaluating the model on concrete inputs. -/
def idCodec : Codec := ⟨id, some, fun _ => rfl⟩

/-- Filesystem: CAS file path to stored (compressed) content. -/
def Fs : Type := String → Option String

def emptyFs : Fs := fun _ => none

/-- Sharded file path for a hash: cas/[first2]/[rest].md.zst (cas.go path). -/
def casPath (hash : String) : String :=
  "cas/" ++ hash.take 2 ++ "/" ++ hash.drop 2 ++ ".md.zst"

/-- cas.Write: hash the content; if the path exists return the hash without
rewriting, otherwise store the compressed content. -/
def casWrite (z : Codec) (fs : Fs) (content : String) : String × Fs :=
  let hash := sha256hex content
  let p := casPath hash
  match fs p with
  | some _ => (hash, fs)
  | none => (hash, fun q => if q = p then some (z.comp content) else fs q)

/-- cas.Read: open the file at the hash's path and decompress it. -/
def casRead (z : Codec) (fs : Fs) (hash : String) : Option String :=
  match fs (casPath hash) with
  | none => none
  | some data => z.decomp data

/-! ## Re-export rows and resolution (internal/db, ResolveReexport)

A crate's reexports table is a row list; the SQL WHERE clause
`local_prefix = ? OR ? LIKE local_prefix || '::%'` is modelled with a
faithful SQLite LIKE matcher (ASCII-case-insensitive, % and _
wildcards), and `ORDER BY length(local_prefix) DESC LIMIT 1` picks the
first row of maximal local-prefix length.
-/

/-- One row of the reexports table: local path, source crate, source path. -/
structure ReexRow where
  lp : String
  sc : String
  sp : String
deriving DecidableEq, Repr

def lowerAscii (c : Char) : Char :=
  if 'A' ≤ c ∧ c ≤ 'Z' then Char.ofNat (c.toNat + 32) else c

/-- SQLite LIKE on char lists: default ASCII-case-insensitive matching
with % (any run) and _ (any one char) wildcards in the pattern. -/
def likeChars : List Char → List Char → Bool
  | [], s => s.isEmpty
  | c :: p, [] => if c = '%' then likeChars p [] else false
  | c :: p, d :: t =>
    if c = '%' then likeChars p (d :: t) || likeChars (c :: p) t
    else if c = '_' then likeChars p t
    else (lowerAscii c == lowerAscii d) && likeChars p t
termination_by p s => p.length + s.length

def sqlLike (pat s : String) : Bool := likeChars pat.data s.data

/-- The WHERE clause of ResolveReexport for one row. -/
def rowMatches (r : ReexRow) (path : String) : Bool :=
  r.lp == path || sqlLike (r.lp ++ "::%") path

/-- First row of maximal local-prefix length (ORDER BY length DESC LIMIT 1). -/
def pickMax : List ReexRow → Option ReexRow
  | [] => none
  | r :: rest =>
    match pickMax rest with
    | none => some r
    | some b => if b.lp.length > r.lp.length then some b else some r

def selectRow (rows : List ReexRow) (path : String) : Option ReexRow :=
  pickMax (rows.filter (fun r => rowMatches r path))

/-- Go byte slicing path[n:], on char lists (the stored paths are ASCII). -/
def strDrop (s : String) (n : Nat) : String := String.mk (s.data.drop n)

/-- db.ResolveReexport: exact match returns the source mapping as stored;
a prefix match appends the remaining suffix to the source path. -/
def resolveReexport (rows : List ReexRow) (path : String) : String × String × Bool :=
  match selectRow rows path with
  | none => ("", "", false)
  | some r =>
    if r.lp == path then (r.sc, r.sp, true)
    else (r.sc, r.sp ++ strDrop path r.lp.length, true)

/-- Store wellformedness: the UNIQUE(crate_id, local_prefix) constraint,
plus the (factual for Rust paths) absence of LIKE wildcards in prefixes. -/
def noWild (s : String) : Prop := ∀ c ∈ s.data, c ≠ '%' ∧ c ≠ '_'

instance (s : String) : Decidable (noWild s) := by unfold noWild; infer_instance

def wfRows (rows : List ReexRow) : Prop :=
  (rows.map (fun r => r.lp)).Nodup ∧ ∀ r ∈ rows, noWild r.lp

instance (rows : List ReexRow) : Decidable (wfRows rows) := by
  unfold wfRows; infer_instance

/-! ## Re-export collector (internal/docs/reexports.go)

The decoded shape of the rustdoc JSON that walkModuleReexports consumes:
an item's `inner` either holds a module's child list, a use declaration,
or some other kind (`none` models an undecodable inner).  The fuel
parameter models the Go call stack of the recursive walk; every theorem
holds for every fuel.
-/

inductive MInner where
  | module (items : List Nat)
  | useItem (uname : String) (uid : Option Nat) (isGlob : Bool)
  | plain (kind : String)
deriving DecidableEq, Repr

structure MItem where
  name : Option String
  inner : Option MInner
  docs : Option String
deriving DecidableEq, Repr

/-- A paths-table entry: the item's crate id, path segments and kind. -/
structure MSummary where
  crateId : Nat
  segs : List String
  kind : String
deriving DecidableEq, Repr

structure MCrate where
  root : Nat
  index : List (Nat × MItem)
  paths : List (Nat × MSummary)
  extNames : Nat → String

def pathJoin (segs : List String) : String := String.intercalate "::" segs

/-- The emission tail of the use-item arm: skip a self-referential
re-export, else emit one row under the local path (module path for glob,
module path :: use name otherwise). -/
def useTargetRow (cname modulePath uname sourcePath sourceCrate : String)
    (isGlob : Bool) : List ReexRow :=
  if isGlob then
    if modulePath = sourcePath ∧ sourceCrate = cname then []
    else [⟨modulePath, sourceCrate, sourcePath⟩]
  else
    if modulePath ++ "::" ++ uname = sourcePath ∧ sourceCrate = cname then []
    else [⟨modulePath ++ "::" ++ uname, sourceCrate, sourcePath⟩]

/-- The use-item arm of walkModuleReexports: resolve the target, name its
crate (local crate when crate_id is 0, else the external crate's
registry name, skipping when unknown), and emit. -/
def useReexRows (crate : MCrate) (cname modulePath uname : String)
    (uid : Option Nat) (isGlob : Bool) : List ReexRow :=
  match uid with
  | none => []
  | some tid =>
    match crate.paths.lookup tid with
    | none => []
    | some target =>
      let sourcePath := pathJoin target.segs
      if target.crateId = 0 then
        useTargetRow cname modulePath uname sourcePath cname isGlob
      else
        let sourceCrate := crate.extNames target.crateId
        if sourceCrate = "" then []
        else useTargetRow cname modulePath uname sourcePath sourceCrate isGlob

/-- walkModuleReexports: walk one module's children, recursing into
submodules and emitting one row per resolvable non-identity use item. -/
def walkReexports : Nat → MCrate → String → Nat → List ReexRow
  | 0, _, _, _ => []
  | fuel + 1, crate, cname, moduleId =>
    match crate.index.lookup moduleId with
    | none => []
    | some moduleItem =>
      let modulePath :=
        match crate.paths.lookup moduleId with
        | some summary => pathJoin summary.segs
        | none => cname
      match moduleItem.inner with
      | some (MInner.module items) =>
        items.flatMap (fun childId =>
          match crate.index.lookup childId with
          | none => []
          | some childItem =>
            match childItem.inner with
            | some (MInner.module _) => walkReexports fuel crate cname childId
            | some (MInner.useItem uname uid isGlob) =>
              useReexRows crate cname modulePath uname uid isGlob
            | _ => [])
      | _ => []

/-- docs.CollectReexports, from the crate root. -/
def collectReexports (fuel : Nat) (crate : MCrate) (cname : String) : List ReexRow :=
  walkReexports fuel crate cname crate.root

/-- db.InsertReexport: INSERT with ON CONFLICT(local_prefix) DO UPDATE. -/
def insertReexport (rows : List ReexRow) (r : ReexRow) : List ReexRow :=
  if rows.any (fun x => x.lp == r.lp)
  then rows.map (fun x => if x.lp == r.lp then ⟨x.lp, r.sc, r.sp⟩ else x)
  else rows ++ [r]

/-- The reexport write phase of indexItems: delete the crate's rows, then
insert every collected row. -/
def ingestReexports (collected : List ReexRow) : List ReexRow :=
  collected.foldl insertReexport []

/-! ## Module fragments

The module arm of fragment generation is not among the repository's
staged sources — only its tests are (TestGenerateFragments_Module and
friends) — so it is modelled from the spec below.
-/

structure Fragment where
  name : String
  content : String
deriving DecidableEq, Repr

/-- Bucket identifier for a child kind, per the spec's module index
fragment names (modules, structs, enums, functions, traits,
attribute-macros); kinds outside the index are not listed. -/
def bucketName : String → Option String
  | "module" => some "modules"
  | "struct" => some "structs"
  | "enum" => some "enums"
  | "function" => some "functions"
  | "trait" => some "traits"
  | "proc_attribute" => some "attribute-macros"
  | _ => none

/-- The fixed emission order of the module index buckets. -/
def bucketOrder : List String :=
  ["modules", "structs", "enums", "functions", "traits", "attribute-macros"]

def firstLine (s : String) : String :=
  match s.splitOn "\n" with
  | [] => ""
  | l :: _ => l

def docsSuffix : Option String → String
  | none => ""
  | some d => if d = "" then "" else ": " ++ firstLine d

/-- Modelled from the spec: one listed line of a module index bucket —
a markdown link to the child's canonical URI plus the first line of its
docs; a re-exported external child also names its source. -/
def listedLine (uname uri : String) (docs : Option String) (src : String) : String :=
  "- [" ++ uname ++ "](" ++ uri ++ ")" ++ src ++ docsSuffix docs

/-- Modelled from the spec: classify one module child.  A use child is
resolved to its canonical target for bucketing (the target's kind) and
linking, but listed under the local path (module path :: use name); an
external target is annotated with its source path.  A direct child is
bucketed by its own kind and skipped when it lives in a foreign crate;
impl children produce nothing. -/
def moduleChildEntry (crate : MCrate) (cname version modulePath : String)
    (childId : Nat) : Option (String × String) :=
  match crate.index.lookup childId with
  | none => none
  | some childItem =>
    match childItem.inner with
    | some (MInner.module _) =>
      match crate.paths.lookup childId with
      | none => none
      | some s =>
        if s.crateId ≠ 0 then none
        else
          match childItem.name with
          | none => none
          | some n =>
            let p := pathJoin s.segs
            some (s.kind, listedLine n ("rsdoc://" ++ cname ++ "/" ++ version ++ "/" ++ p)
              childItem.docs "")
    | some (MInner.useItem uname uid _) =>
      match uid with
      | none => none
      | some tid =>
        match crate.paths.lookup tid with
        | none => none
        | some target =>
          let localPath := modulePath ++ "::" ++ uname
          let uri := "rsdoc://" ++ cname ++ "/" ++ version ++ "/" ++ localPath
          let src :=
            if target.crateId = 0 then ""
            else
              let srcCrate := crate.extNames target.crateId
              let srcPath := pathJoin target.segs
              " (from [" ++ srcPath ++ "](rsdoc://" ++ srcCrate ++ "/latest/" ++
                srcPath ++ "))"
          let docs :=
            match crate.index.lookup tid with
            | some targetItem => targetItem.docs
            | none => none
          some (target.kind, listedLine uname uri docs src)
    | some (MInner.plain "impl") => none
    | some (MInner.plain _) =>
      match crate.paths.lookup childId with
      | none => none
      | some s =>
        if s.crateId ≠ 0 then none
        else
          match childItem.name with
          | none => none
          | some n =>
            let p := pathJoin s.segs
            some (s.kind, listedLine n ("rsdoc://" ++ cname ++ "/" ++ version ++ "/" ++ p)
              childItem.docs "")
    | none => none

/-- The classified child entries of a module item. -/
def moduleEntries (crate : MCrate) (cname version : String) (moduleId : Nat) :
    List (String × String) :=
  match crate.index.lookup moduleId with
  | none => []
  | some moduleItem =>
    match moduleItem.inner with
    | some (MInner.module items) =>
      let modulePath :=
        match crate.paths.lookup moduleId with
        | some summary => pathJoin summary.segs
        | none => cname
      items.filterMap (moduleChildEntry crate cname version modulePath)
    | _ => []

def bucketLines (entries : List (String × String)) (b : String) : List String :=
  (entries.filter (fun e => bucketName e.1 == some b)).map (fun e => e.2)

def bucketTitle : String → String
  | "modules" => "Modules"
  | "structs" => "Structs"
  | "enums" => "Enums"
  | "functions" => "Functions"
  | "traits" => "Traits"
  | "attribute-macros" => "Attribute Macros"
  | b => b

def joinLines : List String → String
  | [] => ""
  | [l] => l
  | l :: rest => l ++ "\n" ++ joinLines rest

/-- Modelled from the spec: the module arm of fragment generation — one
fragment per non-empty child kind bucket, in the fixed bucket order. -/
def generateModuleFragments (crate : MCrate) (cname version : String)
    (moduleId : Nat) : List Fragment :=
  let entries := moduleEntries crate cname version moduleId
  bucketOrder.filterMap (fun b =>
    let lines := bucketLines entries b
    if lines.isEmpty then none
    else some ⟨b, "# " ++ bucketTitle b ++ "\n\n" ++ joinLines lines⟩)

/-- The TestGenerateFragments_Module scenario: a module with a struct,
an enum, a function, an impl (skipped), an unresolvable use (skipped)
and a submodule. -/
def c5crate : MCrate where
  root := 0
  index :=
    [(0, ⟨some "mymod", some (MInner.module [1, 2, 3, 4, 5, 6]), none⟩),
     (1, ⟨some "Foo", some (MInner.plain "struct"), some "A foo struct"⟩),
     (2, ⟨some "Bar", some (MInner.plain "enum"), some "A bar enum"⟩),
     (3, ⟨some "baz", some (MInner.plain "function"), none⟩),
     (4, ⟨none, some (MInner.plain "impl"), none⟩),
     (5, ⟨some "reexport", some (MInner.useItem "reexport" none false), none⟩),
     (6, ⟨some "sub", some (MInner.module []), some "A submodule"⟩)]
  paths :=
    [(1, ⟨0, ["mycrate", "mymod", "Foo"], "struct"⟩),
     (2, ⟨0, ["mycrate", "mymod", "Bar"], "enum"⟩),
     (3, ⟨0, ["mycrate", "mymod", "baz"], "function"⟩),
     (6, ⟨0, ["mycrate", "mymod", "sub"], "module"⟩)]
  extNames := fun _ => ""

/-! ## Chunker (internal/embeddings/chunker.go)

The gomarkdown AST walk only looks at the top-level child sequence:
headings (with level), paragraphs (with their concatenated leaf text),
fenced code blocks (with their literal), anything else.  The external
parser is a parameter; ChunkSections' own logic — heading offset search
over the raw source, section splitting, summary and code-block chunks,
sequential indexes — is translated from the source.
-/

inductive MdBlock where
  | para (text : String)
  | heading (level : Nat)
  | codeBlock (literal : String)
  | other
deriving DecidableEq, Repr

/-- Go strings.TrimSpace over the ASCII whitespace that occurs here. -/
def isSpaceGo (c : Char) : Bool :=
  c == ' ' || c == '\t' || c == '\n' || c == Char.ofNat 11 || c == Char.ofNat 12 || c == '\r'

def trimSpace (s : String) : String :=
  String.mk (((s.data.dropWhile isSpaceGo).reverse.dropWhile isSpaceGo).reverse)

/-- findHeadingOffset: first line-start position carrying the heading's
hash prefix, at or after the last found offset + 1, not already found.
The Go function's -1 sentinel is `none`. -/
def findHeadingOffset (src : List Char) (level : Nat) (found : List Nat) : Option Nat :=
  let pre := List.replicate level '#' ++ [' ']
  let searchFrom := match found.getLast? with | some f => f + 1 | none => 0
  (List.range src.length).find? (fun i =>
    decide (searchFrom ≤ i) &&
    (i == 0 || (src.getD (i - 1) ' ' == '\n')) &&
    pre.isPrefixOf (src.drop i) &&
    !(found.contains i))

/-- One section per heading offset; each section runs to the next
offset or the end of the source, trimmed, dropped when empty. -/
def sectionsFrom (src : List Char) : List Nat → List String
  | [] => []
  | o :: rest =>
    let e := match rest.head? with | some o2 => o2 | none => src.length
    let sec := trimSpace (String.mk ((src.take e).drop o))
    (if sec = "" then [] else [sec]) ++ sectionsFrom src rest

/-- State of the child walk: heading offsets, first pre-heading
paragraph, whether a heading was seen, extracted long code blocks. -/
structure SplitState where
  offsets : List Nat
  firstPara : Option String
  foundHeading : Bool
  codeBlocks : List String

def splitStep (src : List Char) (st : SplitState) (child : MdBlock) : SplitState :=
  let st1 :=
    match child with
    | MdBlock.heading level =>
      let st' := { st with foundHeading := true }
      match findHeadingOffset src level st.offsets with
      | some o => { st' with offsets := st'.offsets ++ [o] }
      | none => st'
    | MdBlock.para text =>
      if !st.foundHeading && st.firstPara.isNone then { st with firstPara := some text }
      else st
    | _ => st
  match child with
  | MdBlock.codeBlock lit =>
    let code := trimSpace lit
    if code.length ≥ 80 then { st1 with codeBlocks := st1.codeBlocks ++ [code] }
    else st1
  | _ => st1

/-- splitSections: walk the AST children for heading offsets, the first
paragraph and long code blocks, then cut the raw source at the offsets. -/
def splitSections (blocks : List MdBlock) (source : String) :
    List String × String × List String :=
  if blocks = [] then ([source], "", [])
  else
    let st := blocks.foldl (splitStep source.data) ⟨[], none, false, []⟩
    let summary := match st.firstPara with | some t => trimSpace t | none => ""
    match st.offsets with
    | [] => ([source], summary, st.codeBlocks)
    | o :: rest =>
      let intro :=
        if o > 0 then
          let introText := trimSpace (String.mk (source.data.take o))
          if introText = "" then [] else [introText]
        else []
      (intro ++ sectionsFrom source.data (o :: rest), summary, st.codeBlocks)

structure Chunk where
  text : String
  index : Nat
deriving DecidableEq, Repr

/-- ChunkSections: trim, early-out on empty body, then the summary chunk
(only when more than one section), the section chunks, the code-block
chunks, with sequential indexes from 0. -/
def chunkSections (parse : String → List MdBlock) (preamble markdown : String) :
    List Chunk :=
  let markdown := trimSpace markdown
  if markdown = "" then [⟨preamble, 0⟩]
  else
    let res := splitSections (parse markdown) markdown
    let sections := res.1
    let summary := res.2.1
    let codeBlocks := res.2.2
    let chunks0 : List Chunk :=
      if summary ≠ "" ∧ sections.length > 1 then [⟨preamble ++ "\n\n" ++ summary, 0⟩]
      else []
    let step1 := fun (acc : List Chunk × Nat) (sec : String) =>
      let text := trimSpace sec
      if text = "" then acc
      else (acc.1 ++ [⟨preamble ++ "\n\n" ++ text, acc.2⟩], acc.2 + 1)
    let acc1 := sections.foldl step1 (chunks0, chunks0.length)
    let step2 := fun (acc : List Chunk × Nat) (code : String) =>
      (acc.1 ++ [⟨preamble ++ "\n\n```\n" ++ code ++ "\n```", acc.2⟩], acc.2 + 1)
    let acc2 := codeBlocks.foldl step2 acc1
    if acc2.1 = [] then [⟨preamble, 0⟩] else acc2.1

/-- The scenario-S2 body. -/
def s2body : String := "Summary line.\n\nMore intro.\n\n# Details\n\nThe details."

/-- The gomarkdown top-level children for the S2 body: two paragraphs,
a level-1 heading, a paragraph. -/
def s2blocks : List MdBlock :=
  [MdBlock.para "Summary line.", MdBlock.para "More intro.",
   MdBlock.heading 1, MdBlock.para "The details."]

def s2parse : String → List MdBlock := fun _ => s2blocks

/-! ## Catalog items and GetItemForHash (both backends)

A table is a row list in insertion order; LIMIT 1 takes the head of the
filtered rows.
-/

structure ItemRow where
  id : Nat
  crateId : Nat
  contentHash : String
  path : String
  kind : String
  signature : String
  docLinks : String
deriving DecidableEq, Repr

/-- The sqlite backend's GetItemForHash: one query, the preferred-crate
list spliced in as a hard AND clause when non-empty. -/
def getItemForHashSqlite (items : List ItemRow) (hash : String)
    (crateIDs : List Nat) : Option ItemRow :=
  if crateIDs.isEmpty then
    (items.filter (fun it => it.contentHash == hash)).head?
  else
    (items.filter (fun it =>
      it.contentHash == hash && crateIDs.contains it.crateId)).head?

/-- The duckdb backend's GetItemForHash: the preferred-crates query
first, falling back to any crate with the hash. -/
def getItemForHashDuck (items : List ItemRow) (hash : String)
    (crateIDs : List Nat) : Option ItemRow :=
  if crateIDs.isEmpty then
    (items.filter (fun it => it.contentHash == hash)).head?
  else
    match (items.filter (fun it =>
        it.contentHash == hash && crateIDs.contains it.crateId)).head? with
    | some it => some it
    | none => (items.filter (fun it => it.contentHash == hash)).head?

/-! ## Embedding insertion (InsertEmbedding, part_008)

Vector components are modelled by their float classification: NaN,
infinity, or a finite value — all the validation inspects.
-/

inductive F32 where
  | nan
  | inf (neg : Bool)
  | fin (val : Int)
deriving DecidableEq, Repr

def isNaNOrInf : F32 → Bool
  | F32.nan => true
  | F32.inf _ => true
  | F32.fin _ => false

/-- validateEmbedding: reject at the first NaN or Inf component. -/
def validateFrom : Nat → List F32 → Except String Unit
  | _, [] => Except.ok ()
  | i, v :: rest =>
    if isNaNOrInf v then Except.error ("embedding contains NaN or Inf at index " ++ toString i)
    else validateFrom (i + 1) rest

def validateEmbedding (embedding : List F32) : Except String Unit :=
  validateFrom 0 embedding

structure EmbRow where
  id : Nat
  contentHash : String
  chunkText : String
  chunkIndex : Nat
  vector : List F32
deriving DecidableEq, Repr

/-- The store state InsertEmbedding touches: the embeddings table (with
its autoincrement id) and the set of ANN node ids (the node payload is
irrelevant to the claim). -/
structure EmbStore where
  nextId : Nat
  rows : List EmbRow
  annIds : List Nat
deriving DecidableEq, Repr

/-- hann's Add: fails on a duplicate node id. -/
def annAdd (ids : List Nat) (id : Nat) : Except String (List Nat) :=
  if id ∈ ids then Except.error "id already exists" else Except.ok (ids ++ [id])

/-- db.InsertEmbedding: dimension check, then NaN/Inf validation, then
the SQL insert, then the ANN add (whose failure leaves the row behind,
as in the source, which has no rollback). -/
def insertEmbedding (st : EmbStore) (contentHash chunkText : String)
    (chunkIndex : Nat) (embedding : List F32) : Except String Unit × EmbStore :=
  if embedding.length ≠ 1024 then (Except.error "expected embedding dimension 1024", st)
  else
    match validateEmbedding embedding with
    | Except.error e => (Except.error e, st)
    | Except.ok _ =>
      let id := st.nextId
      let st1 : EmbStore :=
        { st with nextId := id + 1,
                  rows := st.rows ++ [⟨id, contentHash, chunkText, chunkIndex, embedding⟩] }
      match annAdd st.annIds id with
      | Except.error e => (Except.error e, st1)
      | Except.ok ids => (Except.ok (), { st1 with annIds := ids })

/-! ## HNSW load-or-rebuild recovery (loadOrCreateHNSW, part_008) -/

/-- Go deserializeFloat32: 4-byte little-endian groups to raw words;
a trailing fragment shorter than 4 bytes is dropped. -/
def deserializeFloat32 : List Nat → List Nat
  | b0 :: b1 :: b2 :: b3 :: rest =>
    (b0 + 256 * b1 + 65536 * b2 + 16777216 * b3) :: deserializeFloat32 rest
  | _ => []

structure AnnState where
  nodes : List (Nat × List Nat)
deriving DecidableEq, Repr

def annAddNode (st : AnnState) (id : Nat) (vec : List Nat) : Except String AnnState :=
  if id ∈ st.nodes.map Prod.fst then Except.error "duplicate node"
  else Except.ok ⟨st.nodes ++ [(id, vec)]⟩

/-- One row of the rebuild scan: skip a wrong-dimension vector, skip an
id the ANN rejects, else add. -/
def rebuildStep (st : AnnState) (row : Nat × List Nat) : AnnState :=
  let vec := deserializeFloat32 row.2
  if vec.length ≠ 1024 then st
  else
    match annAddNode st row.1 vec with
    | Except.ok st2 => st2
    | Except.error _ => st

/-- loadOrCreateHNSW: load the file when present; otherwise start empty
and, when the embeddings table is non-empty, add every row and save.
The boolean records whether a save happened. -/
def loadOrCreateHNSW (file : Option AnnState) (rows : List (Nat × List Nat)) :
    AnnState × Bool :=
  match file with
  | some s => (s, false)
  | none =>
    if rows.length = 0 then (⟨[]⟩, false)
    else (rows.foldl rebuildStep ⟨[]⟩, true)

/-- Keep-first deduplication, for describing which ids the rebuild adds. -/
def dedupFirstAux (seen : List Nat) : List Nat → List Nat
  | [] => []
  | x :: rest =>
    if x ∈ seen then dedupFirstAux seen rest
    else x :: dedupFirstAux (seen ++ [x]) rest

def dedupFirst (l : List Nat) : List Nat := dedupFirstAux [] l

/-- Ids of the rows the rebuild must consider: right dimension only. -/
def wellFormedIds (rows : List (Nat × List Nat)) : List Nat :=
  (rows.filter (fun r => (deserializeFloat32 r.2).length = 1024)).map Prod.fst

/-- The scenario-S4 reexports table. -/
def s4rows : List ReexRow := [⟨"mycrate::prelude", "dep", "dep::types"⟩]

/-! ## Query engine (internal/search/search.go with the part_008 backend)

Scores are exact rationals (the float arithmetic here is subtraction
and comparison only, which the claims do not distinguish).  The I/O
boundaries are parameters: the HNSW response for the embedded query,
the backlink lookup, cas.Read, the markdown link rewriter, and the
rerank provider's outcome.  A `none` result models the Go panic of an
out-of-range slice index; every error-free path yields `some`.
-/

structure CrateRow where
  id : Nat
  name : String
  version : String
deriving DecidableEq, Repr

structure DbState where
  crates : List CrateRow
  items : List ItemRow
  embeddings : List (Nat × String)
deriving Repr

/-- db.GetCrateIDsByNames: SELECT id FROM crates WHERE name IN names. -/
def getCrateIDsByNames (db : DbState) (names : List String) : List Nat :=
  if names.isEmpty then []
  else (db.crates.filter (fun c => names.contains c.name)).map (fun c => c.id)

/-- db.contentHashesForCrates: the hashes of the crates' items. -/
def contentHashesForCrates (db : DbState) (crateIDs : List Nat) : List String :=
  (db.items.filter (fun it => crateIDs.contains it.crateId)).map (fun it => it.contentHash)

/-- Update the best-per-hash association with a new similarity. -/
def updateBest (best : List (String × ℚ)) (hash : String) (sim : ℚ) :
    List (String × ℚ) :=
  match best.lookup hash with
  | none => best ++ [(hash, sim)]
  | some prev =>
    if sim > prev then best.map (fun p => if p.1 = hash then (hash, sim) else p)
    else best

/-- db.knnSearch: join ANN hits to content hashes, convert distance to
similarity 1 - d, drop at-or-below threshold, drop hashes outside the
allowed set when crate-scoped, keep the best similarity per hash. -/
def knnSearch (db : DbState) (hits : List (Nat × ℚ)) (threshold : ℚ)
    (allowedHashes : Option (List String)) : List (String × ℚ) :=
  hits.foldl (fun best h =>
    match db.embeddings.lookup h.1 with
    | none => best
    | some hash =>
      let sim := 1 - h.2
      if sim ≤ threshold then best
      else
        match allowedHashes with
        | some allowed => if allowed.contains hash then updateBest best hash sim else best
        | none => updateBest best hash sim) []

/-- Insertion step of the descending sort.Slice on similarity. -/
def insertDesc (x : String × ℚ) : List (String × ℚ) → List (String × ℚ)
  | [] => [x]
  | y :: rest => if x.2 > y.2 then x :: y :: rest else y :: insertDesc x rest

def sortDesc (l : List (String × ℚ)) : List (String × ℚ) := l.foldr insertDesc []

/-- db.VectorSearch: crate-scoped searches precompute the allowed hash
set and return no results when it is empty; results are sorted by
similarity descending and truncated. -/
def vectorSearch (db : DbState) (hits : List (Nat × ℚ)) (threshold : ℚ)
    (limit : Nat) (crateIDs : List Nat) : List (String × ℚ) :=
  if crateIDs.isEmpty then
    (sortDesc (knnSearch db hits threshold none)).take limit
  else
    let allowed := contentHashesForCrates db crateIDs
    if allowed.isEmpty then []
    else (sortDesc (knnSearch db hits threshold (some allowed))).take limit

/-- One backlink BFS queue entry. -/
structure BfsEntry where
  hash : String
  score : ℚ
  depth : Nat
deriving Repr

/-- Candidate update of the BFS: keep the better score. -/
def candUpdate (cand : List (String × ℚ)) (hash : String) (score : ℚ) :
    List (String × ℚ) :=
  match cand.lookup hash with
  | none => cand ++ [(hash, score)]
  | some prev =>
    if score > prev then cand.map (fun p => if p.1 = hash then (hash, score) else p)
    else cand

/-- Process one backlink of the popped entry: dampened propagation,
threshold gate, candidate update, conditional enqueue. -/
def bfsBacklink (threshold : ℚ) (parent : BfsEntry)
    (st : List (String × ℚ) × List BfsEntry × List String) (bl : String × ℚ) :
    List (String × ℚ) × List BfsEntry × List String :=
  let propagated := parent.score * (3/10 + (1 - 3/10) * bl.2)
  if propagated ≤ threshold then st
  else
    let cand := candUpdate st.1 bl.1 propagated
    if bl.1 ∉ st.2.2 ∧ st.2.1.length < 500 then
      (cand, st.2.1 ++ [⟨bl.1, propagated, parent.depth + 1⟩], st.2.2 ++ [bl.1])
    else (cand, st.2.1, st.2.2)

/-- The backlink BFS loop of Search; the fuel models the Go loop, which
terminates because the visited set only grows. -/
def bfsLoop (getBacklinks : String → List (String × ℚ)) (threshold : ℚ) :
    Nat → List BfsEntry → List (String × ℚ) → List String → List (String × ℚ)
  | 0, _, cand, _ => cand
  | _ + 1, [], cand, _ => cand
  | fuel + 1, e :: queue, cand, visited =>
    if e.depth ≥ 3 then bfsLoop getBacklinks threshold fuel queue cand visited
    else
      let st := (getBacklinks e.hash).foldl (bfsBacklink threshold e) (cand, queue, visited)
      bfsLoop getBacklinks threshold fuel st.2.1 st.1 st.2.2

/-- The sorted, truncated candidate list of Search (steps through the
BFS and the sort/truncate at limit*3). -/
def searchCandidates (db : DbState) (hits : List (Nat × ℚ))
    (getBacklinks : String → List (String × ℚ)) (threshold : ℚ) (limit : Nat)
    (bfsFuel : Nat) (crateIDs : List Nat) : List (String × ℚ) :=
  let direct := vectorSearch db hits threshold (limit * 3) crateIDs
  let cand0 := direct.map (fun r => (r.1, r.2))
  let queue0 := direct.map (fun r => BfsEntry.mk r.1 r.2 0)
  let visited0 := direct.map (fun r => r.1)
  let cand := bfsLoop getBacklinks threshold bfsFuel queue0 cand0 visited0
  (sortDesc cand).take (limit * 3)

/-- The resolved candidates: one representative item per hash, dropping
candidates with no resolvable item, keeping the candidate score. -/
def searchResolved (db : DbState) (hits : List (Nat × ℚ))
    (getBacklinks : String → List (String × ℚ)) (threshold : ℚ) (limit : Nat)
    (bfsFuel : Nat) (crateIDs : List Nat) : List (ItemRow × ℚ) :=
  (searchCandidates db hits getBacklinks threshold limit bfsFuel crateIDs).filterMap
    (fun c =>
      match getItemForHashSqlite db.items c.1 crateIDs with
      | none => none
      | some item => some (item, c.2))

structure DocResult where
  uri : String
  crateName : String
  crateVersion : String
  path : String
  kind : String
  score : ℚ
  snippet : String
deriving DecidableEq, Repr

/-- The crate of an item, as the GetCratesForItems join delivers it. -/
def crateFor (db : DbState) (itemId : Nat) : Option CrateRow :=
  match db.items.find? (fun it => it.id == itemId) with
  | none => none
  | some it => db.crates.find? (fun c => c.id == it.crateId)

def truncateStr (s : String) (maxLen : Nat) : String :=
  if s.length ≤ maxLen then s else String.mk (s.data.take maxLen) ++ "..."

/-- snippetForItem: the first 200 chars of the link-rewritten body; the
rewriter (internal/markdown) is a parameter. -/
def snippetForItem (casContent : String → Option String)
    (rewrite : String → String → String) (item : ItemRow) : String :=
  if item.contentHash = "" then ""
  else
    match casContent item.contentHash with
    | none => ""
    | some docsText => truncateStr (rewrite docsText item.docLinks) 200

/-- buildResult of Search. -/
def buildResult (db : DbState) (casContent : String → Option String)
    (rewrite : String → String → String) (item : ItemRow) (score : ℚ) : DocResult :=
  let c := crateFor db item.id
  let crateName := match c with | some cr => cr.name | none => ""
  let crateVersion := match c with | some cr => cr.version | none => ""
  { uri := "rsdoc://" ++ crateName ++ "/" ++ crateVersion ++ "/" ++ item.path,
    crateName := crateName, crateVersion := crateVersion,
    path := item.path, kind := item.kind, score := score,
    snippet := snippetForItem casContent rewrite item }

/-- One rerank-provider entry; the index arrives from JSON as a machine
int, so it may be negative. -/
structure RerankEntry where
  originalIndex : Int
  relevanceScore : ℚ
deriving DecidableEq, Repr

/-- Go slice indexing: panics (none) outside [0, len). -/
def goIndex {α : Type} (l : List α) (i : Int) : Option α :=
  if i < 0 then none else l.get? i.toNat

/-- The reranked-results loop of Search: entries with OriginalIndex ≥
len(resolved) are skipped; the remaining index accesses are Go slice
indexing. -/
def buildFromReranked (db : DbState) (casContent : String → Option String)
    (rewrite : String → String → String) (resolved : List (ItemRow × ℚ))
    (reranked : List RerankEntry) : Option (List DocResult) :=
  reranked.foldl (fun acc rr =>
    match acc with
    | none => none
    | some results =>
      if rr.originalIndex ≥ (resolved.length : Int) then some results
      else
        match goIndex resolved rr.originalIndex with
        | none => none
        | some r => some (results ++ [buildResult db casContent rewrite r.1 rr.relevanceScore]))
    (some [])

/-- Searcher.Search with resolved crate ids, from the vector search on:
candidate set, BFS, sort/truncate, item resolution, rerank with
fallback, result construction. -/
def searchWithIDs (db : DbState) (hits : List (Nat × ℚ))
    (getBacklinks : String → List (String × ℚ))
    (casContent : String → Option String) (rewrite : String → String → String)
    (rerankOut : Except String (List RerankEntry))
    (threshold : ℚ) (limit : Nat) (bfsFuel : Nat) (crateIDs : List Nat) :
    Option (List DocResult) :=
  let sorted := searchCandidates db hits getBacklinks threshold limit bfsFuel crateIDs
  if sorted.isEmpty then some []
  else
    let resolved := searchResolved db hits getBacklinks threshold limit bfsFuel crateIDs
    if resolved.isEmpty then some []
    else
      let reranked := match rerankOut with
        | Except.error _ => []
        | Except.ok entries => entries
      if reranked.isEmpty then
        some ((resolved.take limit).map (fun r => buildResult db casContent rewrite r.1 r.2))
      else buildFromReranked db casContent rewrite resolved reranked

/-- The crate filter resolution at the top of Search: names are only
resolved when the filter is non-empty. -/
def resolveFilter (db : DbState) (crateNames : List String) : List Nat :=
  if crateNames.length > 0 then getCrateIDsByNames db crateNames else []

/-- Searcher.Search (after a successful query embedding). -/
def searchModel (db : DbState) (hits : List (Nat × ℚ))
    (getBacklinks : String → List (String × ℚ))
    (casContent : String → Option String) (rewrite : String → String → String)
    (rerankOut : Except String (List RerankEntry))
    (crateNames : List String) (threshold : ℚ) (limit : Nat) (bfsFuel : Nat) :
    Option (List DocResult) :=
  searchWithIDs db hits getBacklinks casContent rewrite rerankOut threshold limit
    bfsFuel (resolveFilter db crateNames)

/-- The C4/C10 test database: one processed crate "other" holding one
item with hash "h" and one embedding row. -/
def c4db : DbState where
  crates := [⟨1, "other", "1.0"⟩]
  items := [⟨1, 1, "h", "other::Thing", "struct", "", ""⟩]
  embeddings := [(1, "h")]

/-- The C6 failing input: a single item carrying hash "h" in crate 2,
queried with preferred crate list [1]. -/
def c6item : ItemRow := ⟨1, 2, "h", "b::item", "struct", "", ""⟩

/-- The C8 rebuild input: a well-formed row, a wrong-dimension row, and
a duplicate id. -/
def c8rows : List (Nat × List Nat) :=
  [(1, List.replicate 4096 0), (2, [0, 0]), (1, List.replicate 4096 7)]

/-- A small decoded crate: the root module re-exports dep::types as
mycrate::prelude, and re-exports its own mycrate::Foo under its own name
(an identity re-export, which the collector must skip). -/
def s4crate : MCrate where
  root := 0
  index :=
    [(0, ⟨some "mycrate", some (MInner.module [1, 2]), none⟩),
     (1, ⟨some "prelude", some (MInner.useItem "prelude" (some 10) false), none⟩),
     (2, ⟨some "Foo", some (MInner.useItem "Foo" (some 11) false), none⟩)]
  paths :=
    [(0, ⟨0, ["mycrate"], "module"⟩),
     (10, ⟨1, ["dep", "types"], "module"⟩),
     (11, ⟨0, ["mycrate", "Foo"], "struct"⟩)]
  extNames := fun b => if b = 1 then "dep" else ""

end FF

namespace FF

/-! ## Theorems -/

/-- Validation of the SHA-256 embedding against the FIPS 180-4 test vector. -/
theorem sha256hex_abc_vector :
    sha256hex "abc" = "ba7816bf8f01cfea414140de5dae2223b00361a396177a9cb410ff61f20015ad" := by
  decide

/-- Validation of the SHA-256 embedding on the empty string. -/
theorem sha256hex_empty_vector :
    sha256hex "" = "e3b0c44298fc1c149afbf4c8996fb92427ae41e4649b934ca495991b7852b855" := by
  decide

/-- C1: cas.Write returns the lowercase-hex SHA-256 of the content; a
subsequent cas.Read of that hash returns exactly the content (zstd
round-trips); and a second cas.Write of the same content returns the same
hash leaving the filesystem untouched.  The hypothesis is the
no-collision assumption: if a file already sits at this content's hash
path, it stores this content. -/
theorem cas_write_read_write (z : Codec) (fs : Fs) (b : String)
    (hsafe : ∀ v, fs (casPath (sha256hex b)) = some v → v = z.comp b) :
    (casWrite z fs b).1 = sha256hex b ∧
    casRead z (casWrite z fs b).2 (sha256hex b) = some b ∧
    casWrite z (casWrite z fs b).2 b = casWrite z fs b := by
  unfold casWrite casRead
  cases hfs : fs (casPath (sha256hex b)) with
  | some v =>
    have hv : v = z.comp b := hsafe v hfs
    simp [hfs, hv, z.roundtrip]
  | none =>
    simp [hfs, z.roundtrip]

/-- Witness for C1 at the scenario S1 input, on an empty store; the write
also evaluates to the literal digest of "# Hello". -/
theorem cas_write_read_write_witness :
    (casWrite idCodec emptyFs "# Hello").1 =
      "01c8de44e04d2f7a304f50963545a2aff58c33e9c44a1f33fdcb978fb224cb74" ∧
    casRead idCodec (casWrite idCodec emptyFs "# Hello").2 (sha256hex "# Hello") =
      some "# Hello" ∧
    casWrite idCodec (casWrite idCodec emptyFs "# Hello").2 "# Hello" =
      casWrite idCodec emptyFs "# Hello" := by
  have h := cas_write_read_write idCodec emptyFs "# Hello"
    (by intro v hv; simp [emptyFs] at hv)
  refine ⟨?_, h.2.1, h.2.2⟩
  rw [h.1]
  decide

/-! ### Lemmas for re-export resolution -/

theorem strData_append (a b : String) : (a ++ b).data = a.data ++ b.data := rfl

theorem strLen_data (s : String) : s.length = s.data.length := rfl

theorem strAppend_assoc (a b c : String) : a ++ b ++ c = a ++ (b ++ c) := by
  cases a with
  | mk la =>
    cases b with
    | mk lb =>
      cases c with
      | mk lc => exact congrArg String.mk (List.append_assoc la lb lc)

theorem like_percent_any (s : List Char) : likeChars ['%'] s = true := by
  induction s with
  | nil => simp [likeChars]
  | cons d t ih => simp [likeChars, ih]

theorem like_self_append (q s : List Char) (hq : ∀ c ∈ q, c ≠ '%' ∧ c ≠ '_') :
    likeChars (q ++ ['%']) (q ++ s) = true := by
  induction q with
  | nil => simpa using like_percent_any s
  | cons c q ih =>
    have hc := hq c (by simp)
    have hrest : ∀ x ∈ q, x ≠ '%' ∧ x ≠ '_' := fun x h => hq x (by simp [h])
    simp [likeChars, hc.1, hc.2, ih hrest]

theorem like_length_le (q : List Char) : ∀ s, (∀ c ∈ q, c ≠ '%') →
    likeChars (q ++ ['%']) s = true → q.length ≤ s.length := by
  induction q with
  | nil => intro s _ _; simp
  | cons c q ih =>
    intro s hq hlike
    have hc : c ≠ '%' := hq c (by simp)
    cases s with
    | nil => simp [likeChars, hc] at hlike
    | cons d t =>
      simp only [List.cons_append, likeChars, if_neg hc] at hlike
      have ht : likeChars (q ++ ['%']) t = true := by
        by_cases hu : c = '_'
        · simpa [hu] using hlike
        · rw [if_neg hu] at hlike
          simp only [Bool.and_eq_true] at hlike
          exact hlike.2
      have := ih t (fun x h => hq x (by simp [h])) ht
      simp only [List.length_cons]
      omega

theorem pickMax_mem : ∀ (l : List ReexRow) (b : ReexRow), pickMax l = some b → b ∈ l := by
  intro l
  induction l with
  | nil => intro b h; simp [pickMax] at h
  | cons r rest ih =>
    intro b h
    cases hrec : pickMax rest with
    | none =>
      simp only [pickMax, hrec] at h
      cases h
      exact List.mem_cons_self r rest
    | some b' =>
      simp only [pickMax, hrec] at h
      by_cases hlen : b'.lp.length > r.lp.length
      · rw [if_pos hlen] at h
        cases h
        exact List.mem_cons_of_mem r (ih _ hrec)
      · rw [if_neg hlen] at h
        cases h
        exact List.mem_cons_self r rest

theorem pickMax_unique : ∀ (l : List ReexRow) (r : ReexRow), r ∈ l →
    (∀ x ∈ l, x ≠ r → x.lp.length < r.lp.length) → pickMax l = some r := by
  intro l
  induction l with
  | nil => intro r hr; simp at hr
  | cons y rest ih =>
    intro r hr hmax
    rcases List.mem_cons.mp hr with heq | hmem
    · subst heq
      cases hrec : pickMax rest with
      | none => simp only [pickMax, hrec]
      | some b =>
        have hb : b ∈ rest := pickMax_mem rest b hrec
        simp only [pickMax, hrec]
        by_cases hbr : b = r
        · subst hbr; simp
        · have := hmax b (List.mem_cons_of_mem r hb) hbr
          rw [if_neg (by omega)]
    · have hrec := ih r hmem (fun x hx hxr => hmax x (List.mem_cons_of_mem y hx) hxr)
      by_cases hyr : y = r
      · subst hyr
        simp only [pickMax, hrec]
        rw [if_neg (by omega)]
      · have hylen := hmax y (List.mem_cons_self y rest) hyr
        simp only [pickMax, hrec]
        rw [if_pos (by omega)]

theorem rowMatches_cases (x : ReexRow) (path : String) (hx : noWild x.lp)
    (h : rowMatches x path = true) :
    x.lp = path ∨ x.lp.length + 2 ≤ path.length := by
  unfold rowMatches at h
  simp only [Bool.or_eq_true] at h
  rcases h with h1 | h2
  · left; exact eq_of_beq h1
  · right
    unfold sqlLike at h2
    have hdata : (x.lp ++ "::%").data = (x.lp.data ++ [':', ':']) ++ ['%'] := by
      rw [strData_append]
      simp
    rw [hdata] at h2
    have hq : ∀ c ∈ x.lp.data ++ [':', ':'], c ≠ '%' := by
      intro c hc
      rcases List.mem_append.mp hc with hm | hm
      · exact (hx c hm).1
      · simp at hm; subst hm; decide
    have := like_length_le _ path.data hq h2
    simp only [List.length_append, List.length_cons, List.length_nil] at this
    rw [strLen_data, strLen_data]
    omega

theorem rowMatches_self_prefixed (r : ReexRow) (X : String) (hr : noWild r.lp) :
    rowMatches r (r.lp ++ "::" ++ X) = true := by
  unfold rowMatches sqlLike
  rw [Bool.or_eq_true]
  right
  have h1 : (r.lp ++ "::%").data = (r.lp.data ++ [':', ':']) ++ ['%'] := by
    rw [strData_append]; simp
  have h2 : (r.lp ++ "::" ++ X).data = (r.lp.data ++ [':', ':']) ++ X.data := by
    rw [strData_append, strData_append]
  rw [h1, h2]
  apply like_self_append
  intro c hc
  rcases List.mem_append.mp hc with hm | hm
  · exact hr c hm
  · simp at hm; subst hm; exact ⟨by decide, by decide⟩

theorem map_nodup_inj {rows : List ReexRow} (hn : (rows.map (fun r => r.lp)).Nodup)
    {x r : ReexRow} (hx : x ∈ rows) (hr : r ∈ rows) (he : x.lp = r.lp) : x = r := by
  exact List.inj_on_of_nodup_map hn hx hr he

/-- C2 part 1 helper: an exact local-prefix match resolves to the stored
source mapping (the exact row is strictly the longest matcher). -/
theorem resolve_exact (rows : List ReexRow) (r : ReexRow)
    (hwf : wfRows rows) (hr : r ∈ rows) :
    resolveReexport rows r.lp = (r.sc, r.sp, true) := by
  have hmatch : rowMatches r r.lp = true := by
    unfold rowMatches
    simp
  have hsel : selectRow rows r.lp = some r := by
    unfold selectRow
    apply pickMax_unique
    · exact List.mem_filter.mpr ⟨hr, hmatch⟩
    · intro x hxf hxne
      obtain ⟨hxmem, hxm⟩ := List.mem_filter.mp hxf
      rcases rowMatches_cases x r.lp (hwf.2 x hxmem) hxm with heq | hlen
      · exact absurd (map_nodup_inj hwf.1 hxmem hr heq) hxne
      · omega
  unfold resolveReexport
  rw [hsel]
  simp

/-- C2 part 2 helper: when a stored row is the unique longest matcher of
path = local ++ "::" ++ X, resolution rewrites the prefix. -/
theorem resolve_prefixed (rows : List ReexRow) (r : ReexRow) (X : String)
    (hwf : wfRows rows) (hr : r ∈ rows)
    (hmax : ∀ x ∈ rows, x ≠ r → rowMatches x (r.lp ++ "::" ++ X) = true →
      x.lp.length < r.lp.length) :
    resolveReexport rows (r.lp ++ "::" ++ X) = (r.sc, r.sp ++ "::" ++ X, true) := by
  have hmatch := rowMatches_self_prefixed r X (hwf.2 r hr)
  have hsel : selectRow rows (r.lp ++ "::" ++ X) = some r := by
    unfold selectRow
    apply pickMax_unique
    · exact List.mem_filter.mpr ⟨hr, hmatch⟩
    · intro x hxf hxne
      obtain ⟨hxmem, hxm⟩ := List.mem_filter.mp hxf
      exact hmax x hxmem hxne hxm
  have hlen : (r.lp ++ "::" ++ X).length = r.lp.length + 2 + X.length := by
    rw [strLen_data, strData_append, strData_append,
      List.length_append, List.length_append]
    rfl
  have hne : (r.lp == (r.lp ++ "::" ++ X)) = false := by
    apply beq_eq_false_iff_ne.mpr
    intro he
    have : r.lp.length = (r.lp ++ "::" ++ X).length := by rw [← he]
    omega
  unfold resolveReexport
  rw [hsel]
  simp only [hne, Bool.false_eq_true, if_false]
  have hdrop : strDrop (r.lp ++ "::" ++ X) r.lp.length = "::" ++ X := by
    unfold strDrop
    have h2 : (r.lp ++ "::" ++ X).data = r.lp.data ++ (':' :: ':' :: X.data) := by
      rw [strData_append, strData_append]; simp
    rw [h2, strLen_data, List.drop_left]
    rfl
  rw [hdrop, ← strAppend_assoc]

theorem pickMax_ge : ∀ (l : List ReexRow) (r : ReexRow), r ∈ l →
    ∃ b, pickMax l = some b ∧ r.lp.length ≤ b.lp.length := by
  intro l
  induction l with
  | nil => intro r hr; simp at hr
  | cons y rest ih =>
    intro r hr
    rcases List.mem_cons.mp hr with heq | hmem
    · subst heq
      cases hrec : pickMax rest with
      | none => exact ⟨r, by simp only [pickMax, hrec], le_refl _⟩
      | some b =>
        by_cases hlen : b.lp.length > r.lp.length
        · exact ⟨b, by simp only [pickMax, hrec]; rw [if_pos hlen], by omega⟩
        · exact ⟨r, by simp only [pickMax, hrec]; rw [if_neg hlen], le_refl _⟩
    · obtain ⟨b, hb, hble⟩ := ih r hmem
      by_cases hlen : b.lp.length > y.lp.length
      · exact ⟨b, by simp only [pickMax, hb]; rw [if_pos hlen], hble⟩
      · exact ⟨y, by simp only [pickMax, hb]; rw [if_neg hlen], by omega⟩

theorem useTargetRow_no_identity (cname modulePath uname sourcePath sourceCrate : String)
    (isGlob : Bool) (r : ReexRow)
    (hr : r ∈ useTargetRow cname modulePath uname sourcePath sourceCrate isGlob) :
    ¬(r.sc = cname ∧ r.lp = r.sp) := by
  unfold useTargetRow at hr
  split at hr
  · split at hr
    · simp at hr
    · rename_i hguard
      simp at hr
      subst hr
      intro hid
      exact hguard ⟨hid.2, hid.1⟩
  · split at hr
    · simp at hr
    · rename_i hguard
      simp at hr
      subst hr
      intro hid
      exact hguard ⟨hid.2, hid.1⟩

theorem useReexRows_no_identity (crate : MCrate) (cname modulePath uname : String)
    (uid : Option Nat) (isGlob : Bool) (r : ReexRow)
    (hr : r ∈ useReexRows crate cname modulePath uname uid isGlob) :
    ¬(r.sc = cname ∧ r.lp = r.sp) := by
  unfold useReexRows at hr
  split at hr
  · simp at hr
  · split at hr
    · simp at hr
    · split at hr
      · exact useTargetRow_no_identity _ _ _ _ _ _ r hr
      · simp only [] at hr
        split at hr
        · simp at hr
        · exact useTargetRow_no_identity _ _ _ _ _ _ r hr

theorem walk_no_identity : ∀ (fuel : Nat) (crate : MCrate) (cname : String)
    (m : Nat) (r : ReexRow), r ∈ walkReexports fuel crate cname m →
    ¬(r.sc = cname ∧ r.lp = r.sp) := by
  intro fuel
  induction fuel with
  | zero => intro crate cname m r hr; simp [walkReexports] at hr
  | succ n ih =>
    intro crate cname m r hr
    simp only [walkReexports] at hr
    split at hr
    · simp at hr
    · split at hr
      · rw [List.mem_flatMap] at hr
        obtain ⟨childId, _, hbody⟩ := hr
        split at hbody
        · simp at hbody
        · split at hbody
          · exact ih crate cname childId r hbody
          · exact useReexRows_no_identity _ _ _ _ _ _ r hbody
          · simp at hbody
      · simp at hr

theorem mem_insertReexport {rows : List ReexRow} {rr x : ReexRow}
    (hx : x ∈ insertReexport rows rr) : x ∈ rows ∨ x = rr := by
  unfold insertReexport at hx
  split at hx
  · rw [List.mem_map] at hx
    obtain ⟨y, hy, hxy⟩ := hx
    by_cases hlp : (y.lp == rr.lp) = true
    · right
      rw [if_pos hlp] at hxy
      have : y.lp = rr.lp := eq_of_beq hlp
      rw [← hxy, this]
    · left
      rw [if_neg hlp] at hxy
      rw [← hxy]; exact hy
  · rcases List.mem_append.mp hx with h | h
    · exact Or.inl h
    · right; simpa using h

theorem foldl_insert_mem : ∀ (l acc : List ReexRow) (x : ReexRow),
    x ∈ l.foldl insertReexport acc → x ∈ acc ∨ x ∈ l := by
  intro l
  induction l with
  | nil => intro acc x h; exact Or.inl h
  | cons rr l ih =>
    intro acc x h
    rcases ih (insertReexport acc rr) x h with hacc | hl
    · rcases mem_insertReexport hacc with h1 | h2
      · exact Or.inl h1
      · exact Or.inr (by simp [h2])
    · exact Or.inr (List.mem_cons_of_mem rr hl)

/-- C2: re-export resolution and identity-row exclusion.  (1) A stored
row's exact local path resolves to its source mapping.  (2) A path
extending a stored local path by "::X" resolves to source ++ "::X"
whenever that row is the longest matcher.  (3) The selected row always
carries a maximal matching local prefix (exact beats prefix, longer
beats shorter).  (4) The collector never emits an identity re-export.
(5) The store holds only collected rows, so it never holds one. -/
theorem reexport_resolution_and_identity :
    (∀ rows r, wfRows rows → r ∈ rows →
      resolveReexport rows r.lp = (r.sc, r.sp, true)) ∧
    (∀ rows r X, wfRows rows → r ∈ rows →
      (∀ x ∈ rows, x ≠ r → rowMatches x (r.lp ++ "::" ++ X) = true →
        x.lp.length < r.lp.length) →
      resolveReexport rows (r.lp ++ "::" ++ X) = (r.sc, r.sp ++ "::" ++ X, true)) ∧
    (∀ rows path r, r ∈ rows → rowMatches r path = true →
      ∃ b, selectRow rows path = some b ∧ r.lp.length ≤ b.lp.length) ∧
    (∀ fuel crate cname r, r ∈ collectReexports fuel crate cname →
      ¬(r.sc = cname ∧ r.lp = r.sp)) ∧
    (∀ collected x, x ∈ ingestReexports collected → x ∈ collected) := by
  refine ⟨resolve_exact, resolve_prefixed, ?_, ?_, ?_⟩
  · intro rows path r hr hm
    exact pickMax_ge _ r (List.mem_filter.mpr ⟨hr, hm⟩)
  · intro fuel crate cname r hr
    exact walk_no_identity fuel crate cname crate.root r hr
  · intro collected x hx
    rcases foldl_insert_mem collected [] x hx with h | h
    · simp at h
    · exact h

/-- Witness for C2 at the scenario-S4 store and crate. -/
theorem reexport_resolution_witness :
    resolveReexport s4rows "mycrate::prelude" = ("dep", "dep::types", true) ∧
    resolveReexport s4rows "mycrate::prelude::Widget" =
      ("dep", "dep::types::Widget", true) ∧
    ¬(("dep" : String) = "mycrate" ∧ ("mycrate::prelude" : String) = "dep::types") ∧
    (⟨"mycrate::prelude", "dep", "dep::types"⟩ : ReexRow) ∈ s4rows := by
  have h := reexport_resolution_and_identity
  refine ⟨?_, ?_, ?_, ?_⟩
  · exact h.1 s4rows ⟨"mycrate::prelude", "dep", "dep::types"⟩ (by decide) (by decide)
  · have h2 := h.2.1 s4rows ⟨"mycrate::prelude", "dep", "dep::types"⟩ "Widget"
      (by decide) (by decide) (by decide)
    have e1 : ("mycrate::prelude" : String) ++ "::" ++ "Widget" =
        "mycrate::prelude::Widget" := by decide
    have e2 : ("dep::types" : String) ++ "::" ++ "Widget" = "dep::types::Widget" := by
      decide
    rw [e1, e2] at h2
    exact h2
  · exact h.2.2.2.1 3 s4crate "mycrate" ⟨"mycrate::prelude", "dep", "dep::types"⟩
      (by decide)
  · exact h.2.2.2.2 s4rows ⟨"mycrate::prelude", "dep", "dep::types"⟩ (by decide)

/-- C3 counterexample: at the scenario-S2 input the chunker does not
produce the spec's chunk list — the second chunk is the whole intro
section (summary paragraph included), not "p\n\nMore intro." alone. -/
theorem chunkSections_s2_refutes_spec :
    (chunkSections s2parse "p" s2body).map Chunk.text ≠
      ["p\n\nSummary line.", "p\n\nMore intro.", "p\n\n# Details\n\nThe details."] := by
  decide

/-- C3 amended: at the S2 input the chunks are the summary chunk, the
whole intro section (summary line plus second paragraph), and the
heading section, with indexes 0, 1, 2. -/
theorem chunkSections_s2_chunks :
    chunkSections s2parse "p" s2body =
      [⟨"p\n\nSummary line.", 0⟩,
       ⟨"p\n\nSummary line.\n\nMore intro.", 1⟩,
       ⟨"p\n\n# Details\n\nThe details.", 2⟩] := by
  decide

/-! ### Module fragments (spec-modelled) -/

theorem fragments_names_aux (entries : List (String × String)) :
    ∀ (l : List String),
      (l.filterMap (fun b =>
        let lines := bucketLines entries b
        if lines.isEmpty then none
        else some (Fragment.mk b ("# " ++ bucketTitle b ++ "\n\n" ++ joinLines lines)))).map
          Fragment.name =
      l.filter (fun b => !(bucketLines entries b).isEmpty) := by
  intro l
  induction l with
  | nil => rfl
  | cons b rest ih =>
    rw [List.filterMap_cons, List.filter_cons]
    by_cases h : (bucketLines entries b).isEmpty = true
    · simp only [h, if_true, Bool.not_true, Bool.false_eq_true, if_false]
      exact ih
    · have h' : (bucketLines entries b).isEmpty = false := by
        cases hh : (bucketLines entries b).isEmpty
        · rfl
        · exact absurd hh h
      simp only [h', Bool.false_eq_true, if_false, Bool.not_false, if_true, List.map_cons]
      rw [ih]

/-- C5 (spec-modelled): the module arm of fragment generation emits
exactly one fragment per non-empty child kind bucket, named by the
bucket, in the fixed bucket order; a use child is bucketed by its
resolved target's kind and listed under the local path of the
re-export.  The two concrete conjuncts replay the module test scenario
and the use-resolution scenario. -/
theorem module_fragments_per_bucket :
    (∀ crate cname version moduleId,
      (generateModuleFragments crate cname version moduleId).map Fragment.name =
        bucketOrder.filter (fun b =>
          !(bucketLines (moduleEntries crate cname version moduleId) b).isEmpty)) ∧
    (∀ crate cname version moduleId,
      ((generateModuleFragments crate cname version moduleId).map Fragment.name).Nodup) ∧
    (∀ crate cname version modulePath childId childItem uname tid g target,
      crate.index.lookup childId = some childItem →
      childItem.inner = some (MInner.useItem uname (some tid) g) →
      crate.paths.lookup tid = some target →
      moduleChildEntry crate cname version modulePath childId =
        some (target.kind,
          listedLine uname
            ("rsdoc://" ++ cname ++ "/" ++ version ++ "/" ++ (modulePath ++ "::" ++ uname))
            (match crate.index.lookup tid with
             | some t => t.docs
             | none => none)
            (if target.crateId = 0 then ""
             else " (from [" ++ pathJoin target.segs ++ "](rsdoc://" ++
               crate.extNames target.crateId ++ "/latest/" ++ pathJoin target.segs ++ "))"))) ∧
    (generateModuleFragments c5crate "mycrate" "1.0.0" 0).map Fragment.name =
      ["modules", "structs", "enums", "functions"] ∧
    generateModuleFragments s4crate "mycrate" "1.0.0" 0 =
      [⟨"modules", "# Modules\n\n- [prelude](rsdoc://mycrate/1.0.0/mycrate::prelude)" ++
          " (from [dep::types](rsdoc://dep/latest/dep::types))"⟩,
       ⟨"structs", "# Structs\n\n- [Foo](rsdoc://mycrate/1.0.0/mycrate::Foo)"⟩] := by
  have hnames : ∀ crate cname version moduleId,
      (generateModuleFragments crate cname version moduleId).map Fragment.name =
        bucketOrder.filter (fun b =>
          !(bucketLines (moduleEntries crate cname version moduleId) b).isEmpty) := by
    intro crate cname version moduleId
    exact fragments_names_aux (moduleEntries crate cname version moduleId) bucketOrder
  refine ⟨hnames, ?_, ?_, by decide, by decide⟩
  · intro crate cname version moduleId
    rw [hnames]
    exact List.Nodup.filter _ (by decide)
  · intro crate cname version modulePath childId childItem uname tid g target h1 h2 h3
    unfold moduleChildEntry
    simp only [h1, h2, h3]

/-! ### Lemmas for GetItemForHash -/

theorem filter_head_isSome {p : ItemRow → Bool} {l : List ItemRow} {x : ItemRow}
    (hx : x ∈ l) (hpx : p x = true) : ((l.filter p).head?).isSome = true := by
  have hmem : x ∈ l.filter p := List.mem_filter.mpr ⟨hx, hpx⟩
  cases hf : l.filter p with
  | nil => rw [hf] at hmem; simp at hmem
  | cons a t => simp

/-- C6: the sqlite GetItemForHash evaluated at the failing input returns
no item although an item with the hash exists; the duckdb version falls
back to it, and in general the duckdb version returns an item whenever
any item carries the hash (the claim's contract). -/
theorem getItemForHash_sqlite_drops_fallback :
    getItemForHashSqlite [c6item] "h" [1] = none ∧
    c6item.contentHash = "h" ∧
    getItemForHashDuck [c6item] "h" [1] = some c6item ∧
    (∀ items hash ids, (∃ it ∈ items, it.contentHash = hash) →
      ((getItemForHashDuck items hash ids).isSome) = true) := by
  refine ⟨by decide, by decide, by decide, ?_⟩
  intro items hash ids hex
  obtain ⟨it, hit, hh⟩ := hex
  unfold getItemForHashDuck
  have hsome : ((items.filter (fun i => i.contentHash == hash)).head?).isSome = true :=
    filter_head_isSome hit (by simp [hh])
  by_cases hids : ids.isEmpty
  · rw [if_pos hids]; exact hsome
  · rw [if_neg hids]
    cases hpref : (items.filter (fun i =>
        i.contentHash == hash && ids.contains i.crateId)).head? with
    | some it2 => simp only [hpref]; rfl
    | none => simp only [hpref]; exact hsome

/-! ### Lemmas for InsertEmbedding -/

theorem validateFrom_ok_iff : ∀ (l : List F32) (i : Nat),
    validateFrom i l = Except.ok () ↔ ∀ v ∈ l, isNaNOrInf v = false := by
  intro l
  induction l with
  | nil => intro i; simp [validateFrom]
  | cons v rest ih =>
    intro i
    simp only [validateFrom]
    by_cases hv : isNaNOrInf v = true
    · rw [if_pos hv]
      constructor
      · intro h; cases h
      · intro h
        have := h v (List.mem_cons_self v rest)
        rw [hv] at this
        cases this
    · have hv' : isNaNOrInf v = false := by
        cases h : isNaNOrInf v
        · rfl
        · exact absurd h hv
      rw [if_neg hv, ih (i + 1)]
      constructor
      · intro h x hx
        rcases List.mem_cons.mp hx with heq | hx'
        · subst heq; exact hv'
        · exact h x hx'
      · intro h x hx
        exact h x (List.mem_cons_of_mem v hx)

/-- C7: InsertEmbedding errors exactly on a wrong-dimension or
non-finite vector (given the ANN accepts the node id), and on such a
rejection the store is untouched: no embeddings row, no ANN node. -/
theorem insertEmbedding_bad_dim (st : EmbStore) (ch ct : String) (ci : Nat)
    (emb : List F32) (h : emb.length ≠ 1024) :
    insertEmbedding st ch ct ci emb = (Except.error "expected embedding dimension 1024", st) := by
  unfold insertEmbedding
  rw [if_pos h]

theorem insertEmbedding_bad_val (st : EmbStore) (ch ct : String) (ci : Nat)
    (emb : List F32) (e : String) (hdim : emb.length = 1024)
    (hval : validateEmbedding emb = Except.error e) :
    insertEmbedding st ch ct ci emb = (Except.error e, st) := by
  unfold insertEmbedding
  rw [if_neg (fun hh => hh hdim)]
  rw [hval]

theorem insertEmbedding_ok (st : EmbStore) (ch ct : String) (ci : Nat)
    (emb : List F32) (hdim : emb.length = 1024)
    (hval : validateEmbedding emb = Except.ok ()) (haccept : st.nextId ∉ st.annIds) :
    insertEmbedding st ch ct ci emb =
      (Except.ok (),
        ⟨st.nextId + 1,
         st.rows ++ [⟨st.nextId, ch, ct, ci, emb⟩],
         st.annIds ++ [st.nextId]⟩) := by
  unfold insertEmbedding annAdd
  rw [if_neg (fun hh => hh hdim)]
  simp only [hval]
  rw [if_neg haccept]

/-- C7: InsertEmbedding errors exactly on a wrong-dimension or
non-finite vector (given the ANN accepts the node id), and on such a
rejection the store is untouched: no embeddings row, no ANN node. -/
theorem insertEmbedding_validation (st : EmbStore) (ch ct : String) (ci : Nat)
    (emb : List F32) (haccept : st.nextId ∉ st.annIds) :
    ((insertEmbedding st ch ct ci emb).1 = Except.ok () ↔
      (emb.length = 1024 ∧ ∀ v ∈ emb, isNaNOrInf v = false)) ∧
    ((emb.length ≠ 1024 ∨ ∃ v ∈ emb, isNaNOrInf v = true) →
      (insertEmbedding st ch ct ci emb).2 = st) := by
  by_cases hdim : emb.length = 1024
  · cases hval : validateEmbedding emb with
    | error e =>
      rw [insertEmbedding_bad_val st ch ct ci emb e hdim hval]
      refine ⟨Iff.intro (fun h => by cases h) (fun h => ?_), fun _ => rfl⟩
      have hok : validateEmbedding emb = Except.ok () :=
        (validateFrom_ok_iff emb 0).mpr h.2
      rw [hval] at hok
      cases hok
    | ok u =>
      cases u
      have hvalid : ∀ v ∈ emb, isNaNOrInf v = false := (validateFrom_ok_iff emb 0).mp hval
      rw [insertEmbedding_ok st ch ct ci emb hdim hval haccept]
      refine ⟨iff_of_true rfl ⟨hdim, hvalid⟩, fun h => ?_⟩
      rcases h with h | ⟨v, hv, hbad⟩
      · exact absurd hdim h
      · rw [hvalid v hv] at hbad
        cases hbad
  · rw [insertEmbedding_bad_dim st ch ct ci emb hdim]
    exact ⟨Iff.intro (fun h => by cases h) (fun h => absurd h.1 hdim), fun _ => rfl⟩

/-- Witness for C7 on an empty store with an all-zero 1024-vector
(accepted) and with a NaN vector (rejected leaving the store empty). -/
theorem insertEmbedding_validation_witness :
    ((0 : Nat) ∉ ([] : List Nat)) ∧
    (insertEmbedding ⟨0, [], []⟩ "h" "t" 0 (List.replicate 1024 (F32.fin 0))).1 =
      Except.ok () ∧
    (insertEmbedding ⟨0, [], []⟩ "h" "t" 0 (List.replicate 1024 F32.nan)).2 =
      ⟨0, [], []⟩ := by
  have hgood := insertEmbedding_validation ⟨0, [], []⟩ "h" "t" 0
    (List.replicate 1024 (F32.fin 0)) (List.not_mem_nil 0)
  have hbad := insertEmbedding_validation ⟨0, [], []⟩ "h" "t" 0
    (List.replicate 1024 F32.nan) (List.not_mem_nil 0)
  refine ⟨List.not_mem_nil 0, ?_, ?_⟩
  · refine hgood.1.mpr ⟨List.length_replicate 1024 _, ?_⟩
    intro v hv
    rw [List.eq_of_mem_replicate hv]
    rfl
  · refine hbad.2 (Or.inr ⟨F32.nan, ?_, rfl⟩)
    exact List.mem_replicate.mpr ⟨by omega, rfl⟩

/-! ### Lemmas for HNSW recovery -/

theorem dedupFirstAux_mem : ∀ (l seen : List Nat) (x : Nat),
    x ∈ dedupFirstAux seen l ↔ x ∈ l ∧ x ∉ seen := by
  intro l
  induction l with
  | nil => intro seen x; simp [dedupFirstAux]
  | cons y rest ih =>
    intro seen x
    simp only [dedupFirstAux]
    by_cases hy : y ∈ seen
    · rw [if_pos hy, ih]
      constructor
      · rintro ⟨hx, hs⟩
        exact ⟨List.mem_cons_of_mem y hx, hs⟩
      · rintro ⟨hx, hs⟩
        rcases List.mem_cons.mp hx with heq | hx'
        · subst heq; exact absurd hy hs
        · exact ⟨hx', hs⟩
    · rw [if_neg hy]
      simp only [List.mem_cons, ih]
      constructor
      · rintro (heq | ⟨hx, hs⟩)
        · subst heq; exact ⟨Or.inl rfl, hy⟩
        · exact ⟨Or.inr hx, fun hseen => hs (by simp [hseen])⟩
      · rintro ⟨hor, hs⟩
        rcases hor with heq | hx
        · exact Or.inl heq
        · by_cases hxy : x = y
          · exact Or.inl hxy
          · exact Or.inr ⟨hx, by simp [hs, hxy]⟩

theorem rebuild_ids : ∀ (l : List (Nat × List Nat)) (st : AnnState),
    (l.foldl rebuildStep st).nodes.map Prod.fst =
      st.nodes.map Prod.fst ++ dedupFirstAux (st.nodes.map Prod.fst) (wellFormedIds l) := by
  intro l
  induction l with
  | nil => intro st; simp [wellFormedIds, dedupFirstAux]
  | cons r rest ih =>
    intro st
    simp only [List.foldl_cons]
    by_cases hdim : (deserializeFloat32 r.2).length = 1024
    · by_cases hmem : r.1 ∈ st.nodes.map Prod.fst
      · have hstep : rebuildStep st r = st := by
          unfold rebuildStep annAddNode
          rw [if_neg (fun h => h hdim), if_pos hmem]
        rw [hstep, ih]
        congr 1
        unfold wellFormedIds
        rw [List.filter_cons, if_pos (by simpa using hdim)]
        simp only [List.map_cons, dedupFirstAux, if_pos hmem]
      · have hstep : rebuildStep st r = ⟨st.nodes ++ [(r.1, deserializeFloat32 r.2)]⟩ := by
          unfold rebuildStep annAddNode
          rw [if_neg (fun h => h hdim), if_neg hmem]
        rw [hstep, ih]
        unfold wellFormedIds
        rw [List.filter_cons, if_pos (by simpa using hdim)]
        simp only [List.map_cons, List.map_append, dedupFirstAux, if_neg hmem,
          List.map_cons, List.map_nil]
        rw [List.append_assoc]
        rfl
    · have hstep : rebuildStep st r = st := by
        unfold rebuildStep
        rw [if_pos hdim]
      rw [hstep, ih]
      congr 2
      unfold wellFormedIds
      rw [List.filter_cons, if_neg (by simpa using hdim)]

/-- C8: on open, a present ANN file is loaded as-is; with no file and a
non-empty embeddings table the index is rebuilt and saved, its node ids
being exactly the keep-first deduplication of the right-dimension row
ids (malformed and duplicate rows are skipped, recovery never aborts);
in particular every well-formed row has a matching ANN node. -/
theorem hnsw_recovery :
    (∀ (s : AnnState) (rows : List (Nat × List Nat)),
      loadOrCreateHNSW (some s) rows = (s, false)) ∧
    (∀ rows, rows ≠ [] → (loadOrCreateHNSW none rows).2 = true) ∧
    (∀ rows, (loadOrCreateHNSW none rows).1.nodes.map Prod.fst =
      dedupFirst (wellFormedIds rows)) ∧
    (∀ rows r, r ∈ rows → (deserializeFloat32 r.2).length = 1024 →
      r.1 ∈ (loadOrCreateHNSW none rows).1.nodes.map Prod.fst) := by
  have hids : ∀ rows, (loadOrCreateHNSW none rows).1.nodes.map Prod.fst =
      dedupFirst (wellFormedIds rows) := by
    intro rows
    unfold loadOrCreateHNSW
    by_cases hnil : rows.length = 0
    · rw [if_pos hnil]
      have : rows = [] := List.length_eq_zero.mp hnil
      subst this
      simp [wellFormedIds, dedupFirst, dedupFirstAux]
    · rw [if_neg hnil]
      have := rebuild_ids rows ⟨[]⟩
      simpa [dedupFirst] using this
  refine ⟨fun s rows => rfl, ?_, hids, ?_⟩
  · intro rows hrows
    unfold loadOrCreateHNSW
    rw [if_neg (fun h => hrows (List.length_eq_zero.mp h))]
  · intro rows r hr hdim
    rw [hids rows]
    unfold dedupFirst
    rw [dedupFirstAux_mem]
    refine ⟨?_, by simp⟩
    unfold wellFormedIds
    exact List.mem_map_of_mem Prod.fst (List.mem_filter.mpr ⟨hr, by simpa using hdim⟩)

/-! ### Lemmas for the query engine -/

theorem bfsLoop_nil_queue (bl : String → List (String × ℚ)) (t : ℚ)
    (fuel : Nat) (cand : List (String × ℚ)) (visited : List String) :
    bfsLoop bl t fuel [] cand visited = cand := by
  cases fuel <;> rfl

theorem isEmpty_false_of_ne_nil {α : Type} {l : List α} (h : l ≠ []) :
    l.isEmpty = false := by
  cases l with
  | nil => exact absurd rfl h
  | cons a t => rfl

/-- C4 counterexample: crate filter ["nosuchcrate"] resolves to no
crate ids, yet the search returns a result from another crate — the
filter is silently dropped, not turned into zero results. -/
theorem search_empty_resolution_counterexample :
    getCrateIDsByNames c4db ["nosuchcrate"] = [] ∧
    searchModel c4db [(1, 0)] (fun _ => []) (fun _ => none) (fun t _ => t)
      (Except.error "rerank down") ["nosuchcrate"] (3/10) 20 10 =
      some [⟨"rsdoc://other/1.0/other::Thing", "other", "1.0", "other::Thing",
        "struct", 1, ""⟩] := by
  constructor
  · decide
  · norm_num [searchModel, searchWithIDs, searchCandidates, vectorSearch, knnSearch,
      updateBest, bfsLoop, bfsBacklink, sortDesc, insertDesc, searchResolved,
      getItemForHashSqlite, buildFromReranked, goIndex, buildResult, crateFor,
      snippetForItem, truncateStr, resolveFilter, getCrateIDsByNames,
      contentHashesForCrates, c4db, List.lookup]
    norm_num +decide [searchResolved, searchCandidates, vectorSearch, knnSearch,
      updateBest, bfsLoop, bfsBacklink, sortDesc, insertDesc, getItemForHashSqlite,
      resolveFilter, getCrateIDsByNames, contentHashesForCrates, c4db, List.lookup]

/-- C4 amended: a non-empty resolved crate-id set owning no content
hashes yields zero results (the VectorSearch guard); an empty resolved
id set drops the filter — the search behaves exactly as an unscoped
one. -/
theorem search_crate_filter_behavior :
    (∀ db hits bl cas rw rer t l f crateIDs, crateIDs ≠ [] →
      contentHashesForCrates db crateIDs = [] →
      searchWithIDs db hits bl cas rw rer t l f crateIDs = some []) ∧
    (∀ db hits bl cas rw rer names t l f,
      getCrateIDsByNames db names = [] →
      searchModel db hits bl cas rw rer names t l f =
        searchModel db hits bl cas rw rer [] t l f) := by
  constructor
  · intro db hits bl cas rw rer t l f crateIDs hne hhashes
    have hie : crateIDs.isEmpty = false := isEmpty_false_of_ne_nil hne
    unfold searchWithIDs searchCandidates vectorSearch
    simp only [hie, Bool.false_eq_true, if_false, hhashes, List.isEmpty_nil, if_true,
      List.map_nil, bfsLoop_nil_queue, sortDesc, List.foldr_nil, List.take_nil]
  · intro db hits bl cas rw rer names t l f hres
    unfold searchModel
    have : resolveFilter db names = resolveFilter db [] := by
      unfold resolveFilter
      by_cases h : names.length > 0
      · rw [if_pos h, hres]
        simp
      · rw [if_neg h]
        simp
    rw [this]

theorem insertDesc_mem (x z : String × ℚ) :
    ∀ l, z ∈ insertDesc x l ↔ z = x ∨ z ∈ l := by
  intro l
  induction l with
  | nil => simp [insertDesc]
  | cons y rest ih =>
    simp only [insertDesc]
    by_cases h : x.2 > y.2
    · rw [if_pos h]
      simp [List.mem_cons]
    · rw [if_neg h]
      simp only [List.mem_cons, ih]
      tauto

theorem insertDesc_pairwise (x : String × ℚ) :
    ∀ l, List.Pairwise (fun a b : String × ℚ => b.2 ≤ a.2) l →
      List.Pairwise (fun a b : String × ℚ => b.2 ≤ a.2) (insertDesc x l) := by
  intro l
  induction l with
  | nil => intro _; simp [insertDesc]
  | cons y rest ih =>
    intro h
    rw [List.pairwise_cons] at h
    simp only [insertDesc]
    by_cases hxy : x.2 > y.2
    · rw [if_pos hxy]
      refine List.Pairwise.cons ?_ (List.Pairwise.cons h.1 h.2)
      intro z hz
      rcases List.mem_cons.mp hz with heq | hz'
      · subst heq; exact le_of_lt hxy
      · have := h.1 z hz'
        have hyx : y.2 ≤ x.2 := le_of_lt hxy
        exact le_trans this hyx
    · rw [if_neg hxy]
      refine List.Pairwise.cons ?_ (ih h.2)
      intro z hz
      rcases (insertDesc_mem x z rest).mp hz with heq | hz'
      · subst heq
        exact le_of_not_lt hxy
      · exact h.1 z hz'

theorem sortDesc_pairwise (l : List (String × ℚ)) :
    List.Pairwise (fun a b : String × ℚ => b.2 ≤ a.2) (sortDesc l) := by
  induction l with
  | nil => simp [sortDesc]
  | cons x rest ih => exact insertDesc_pairwise x _ ih

theorem pairwise_filterMap_snd {β : Type} (f : String × ℚ → Option (β × ℚ))
    (hf : ∀ c x, f c = some x → x.2 = c.2) :
    ∀ l, List.Pairwise (fun a b : String × ℚ => b.2 ≤ a.2) l →
      List.Pairwise (fun a b : β × ℚ => b.2 ≤ a.2) (l.filterMap f) := by
  intro l
  induction l with
  | nil => intro _; simp
  | cons c rest ih =>
    intro h
    rw [List.pairwise_cons] at h
    rw [List.filterMap_cons]
    cases hc : f c with
    | none => exact ih h.2
    | some x =>
      refine List.Pairwise.cons ?_ (ih h.2)
      intro y hy
      obtain ⟨c2, hc2, hfc2⟩ := List.mem_filterMap.mp hy
      rw [hf c x hc, hf c2 y hfc2]
      exact h.1 c2 hc2

/-- Scores of the resolved candidate list are descending: they come
from the sorted candidate list, and resolution preserves each score. -/
theorem searchResolved_pairwise (db : DbState) (hits : List (Nat × ℚ))
    (bl : String → List (String × ℚ)) (t : ℚ) (l f : Nat) (crateIDs : List Nat) :
    List.Pairwise (fun a b : ItemRow × ℚ => b.2 ≤ a.2)
      (searchResolved db hits bl t l f crateIDs) := by
  unfold searchResolved
  apply pairwise_filterMap_snd
  · intro c x hcx
    cases hg : getItemForHashSqlite db.items c.1 crateIDs with
    | none => rw [hg] at hcx; cases hcx
    | some item =>
      rw [hg] at hcx
      cases hcx
      rfl
  · unfold searchCandidates
    exact List.Pairwise.sublist (List.take_sublist _ _) (sortDesc_pairwise _)

/-- C9: when the rerank provider fails, Search still succeeds and the
results are exactly the resolved candidates in pre-rerank order
(descending score), truncated to the limit. -/
theorem search_rerank_failure_fallback (db : DbState) (hits : List (Nat × ℚ))
    (bl : String → List (String × ℚ)) (cas : String → Option String)
    (rw : String → String → String) (e : String) (names : List String)
    (t : ℚ) (l f : Nat) :
    searchModel db hits bl cas rw (Except.error e) names t l f =
      some (((searchResolved db hits bl t l f (resolveFilter db names)).take l).map
        (fun r => buildResult db cas rw r.1 r.2)) ∧
    List.Pairwise (fun a b : DocResult => b.score ≤ a.score)
      (((searchResolved db hits bl t l f (resolveFilter db names)).take l).map
        (fun r => buildResult db cas rw r.1 r.2)) := by
  constructor
  · unfold searchModel searchWithIDs
    by_cases hs : (searchCandidates db hits bl t l f (resolveFilter db names)).isEmpty = true
    · have hnil : searchCandidates db hits bl t l f (resolveFilter db names) = [] :=
        List.isEmpty_iff.mp hs
      simp only [hs, if_true]
      unfold searchResolved
      rw [hnil]
      simp
    · simp only [hs, Bool.false_eq_true, if_false]
      by_cases hr : (searchResolved db hits bl t l f (resolveFilter db names)).isEmpty = true
      · have hnil : searchResolved db hits bl t l f (resolveFilter db names) = [] :=
          List.isEmpty_iff.mp hr
        simp only [hr, if_true]
        rw [hnil]
        simp
      · simp only [hr, Bool.false_eq_true, if_false, List.isEmpty_nil, if_true]
  · rw [List.pairwise_map]
    refine List.Pairwise.imp ?_
      (List.Pairwise.sublist (List.take_sublist _ _)
        (searchResolved_pairwise db hits bl t l f (resolveFilter db names)))
    intro a b hab
    exact hab

/-- Witness for C9 at the C4 database with a failing provider. -/
theorem search_rerank_failure_fallback_witness :
    searchModel c4db [(1, 0)] (fun _ => []) (fun _ => none) (fun t _ => t)
      (Except.error "rerank down") [] (3/10) 20 10 =
      some (((searchResolved c4db [(1, 0)] (fun _ => []) (3/10) 20 10
        (resolveFilter c4db [])).take 20).map
          (fun r => buildResult c4db (fun _ => none) (fun t _ => t) r.1 r.2)) := by
  exact (search_rerank_failure_fallback c4db [(1, 0)] (fun _ => []) (fun _ => none)
    (fun t _ => t) "rerank down" [] (3/10) 20 10).1

/-- C10 counterexample: a provider entry with OriginalIndex -1 is not
skipped by the upper-bound-only guard, and result construction indexes
out of bounds (modelled as none, the Go panic). -/
theorem search_negative_index_counterexample :
    searchModel c4db [(1, 0)] (fun _ => []) (fun _ => none) (fun t _ => t)
      (Except.ok [⟨-1, 1/2⟩]) [] (3/10) 20 10 = none := by
  norm_num [searchModel, searchWithIDs, searchCandidates, vectorSearch, knnSearch,
    updateBest, bfsLoop, bfsBacklink, sortDesc, insertDesc, searchResolved,
    getItemForHashSqlite, buildFromReranked, goIndex, buildResult, crateFor,
    snippetForItem, truncateStr, resolveFilter, getCrateIDsByNames,
    contentHashesForCrates, c4db, List.lookup]
  norm_num +decide [searchResolved, searchCandidates, vectorSearch, knnSearch,
    updateBest, bfsLoop, bfsBacklink, sortDesc, insertDesc, getItemForHashSqlite,
    buildFromReranked, goIndex, resolveFilter, getCrateIDsByNames,
    contentHashesForCrates, c4db, List.lookup]

theorem buildFromReranked_aux (db : DbState) (cas : String → Option String)
    (rw : String → String → String) (resolved : List (ItemRow × ℚ)) :
    ∀ (reranked : List RerankEntry) (acc : Option (List DocResult)), acc ≠ none →
      (∀ rr ∈ reranked, 0 ≤ rr.originalIndex) →
      reranked.foldl (fun acc rr =>
        match acc with
        | none => none
        | some results =>
          if rr.originalIndex ≥ (resolved.length : Int) then some results
          else
            match goIndex resolved rr.originalIndex with
            | none => none
            | some r =>
              some (results ++ [buildResult db cas rw r.1 rr.relevanceScore])) acc ≠ none := by
  intro reranked
  induction reranked with
  | nil => intro acc hacc _; exact hacc
  | cons rr rest ih =>
    intro acc hacc hnn
    rw [List.foldl_cons]
    apply ih
    · cases acc with
      | none => exact absurd rfl hacc
      | some results =>
        by_cases hge : rr.originalIndex ≥ (resolved.length : Int)
        · simp only [hge, if_true]
          exact Option.some_ne_none _
        · simp only [hge, if_false]
          have h0 : 0 ≤ rr.originalIndex := hnn rr (List.mem_cons_self rr rest)
          have hlt : rr.originalIndex.toNat < resolved.length := by omega
          cases hg : goIndex resolved rr.originalIndex with
          | none =>
            unfold goIndex at hg
            rw [if_neg (by omega)] at hg
            rw [List.get?_eq_none] at hg
            omega
          | some r => exact Option.some_ne_none _
    · intro x hx
      exact hnn x (List.mem_cons_of_mem rr hx)

/-- C10 amended: entries with OriginalIndex at or above the resolved
length are skipped; for provider outputs whose indices are all
non-negative, result construction never indexes out of bounds, so the
search never panics. -/
theorem search_result_construction_safe :
    (∀ db cas rw resolved (rr : RerankEntry),
      (resolved.length : Int) ≤ rr.originalIndex →
      buildFromReranked db cas rw resolved [rr] = some []) ∧
    (∀ db hits bl cas rw rer names t l f,
      (∀ entries, rer = Except.ok entries → ∀ rr ∈ entries, 0 ≤ rr.originalIndex) →
      searchModel db hits bl cas rw rer names t l f ≠ none) := by
  constructor
  · intro db cas rw resolved rr hge
    unfold buildFromReranked
    rw [List.foldl_cons]
    simp only [ge_iff_le, hge, if_true]
    rfl
  · intro db hits bl cas rw rer names t l f hnn
    unfold searchModel searchWithIDs
    by_cases hs : (searchCandidates db hits bl t l f (resolveFilter db names)).isEmpty = true
    · simp only [hs, if_true]
      exact Option.some_ne_none _
    · simp only [hs, Bool.false_eq_true, if_false]
      by_cases hr : (searchResolved db hits bl t l f (resolveFilter db names)).isEmpty = true
      · simp only [hr, if_true]
        exact Option.some_ne_none _
      · simp only [hr, Bool.false_eq_true, if_false]
        cases rer with
        | error e =>
          simp only [List.isEmpty_nil, if_true]
          exact Option.some_ne_none _
        | ok entries =>
          by_cases he : entries.isEmpty = true
          · simp only [he, if_true]
            exact Option.some_ne_none _
          · simp only [he, Bool.false_eq_true, if_false]
            unfold buildFromReranked
            exact buildFromReranked_aux db cas rw _ entries (some [])
              (Option.some_ne_none _) (hnn entries rfl)

/-- Witness for C10 at the C4 database: an in-range entry and an
above-range entry (skipped), no panic. -/
theorem search_result_construction_safe_witness :
    buildFromReranked c4db (fun _ => none) (fun t _ => t)
      [(⟨1, 1, "h", "other::Thing", "struct", "", ""⟩, 1)] [⟨5, 1⟩] = some [] ∧
    searchModel c4db [(1, 0)] (fun _ => []) (fun _ => none) (fun t _ => t)
      (Except.ok [⟨0, 1/2⟩, ⟨7, 1⟩]) [] (3/10) 20 10 ≠ none := by
  have h := search_result_construction_safe
  constructor
  · exact h.1 c4db (fun _ => none) (fun t _ => t)
      [(⟨1, 1, "h", "other::Thing", "struct", "", ""⟩, 1)] ⟨5, 1⟩ (by decide)
  · refine h.2 c4db [(1, 0)] (fun _ => []) (fun _ => none) (fun t _ => t)
      (Except.ok [⟨0, 1/2⟩, ⟨7, 1⟩]) [] (3/10) 20 10 ?_
    intro entries he rr hrr
    cases he
    rcases List.mem_cons.mp hrr with heq | hrr2
    · subst heq; decide
    · rcases List.mem_cons.mp hrr2 with heq | hrr3
      · subst heq; decide
      · cases hrr3

/-- Witness for C8 at a concrete table holding a good row, a
wrong-dimension row and a duplicate id. -/
theorem hnsw_recovery_witness :
    loadOrCreateHNSW (some ⟨[(9, [])]⟩) c8rows = (⟨[(9, [])]⟩, false) ∧
    (loadOrCreateHNSW none c8rows).2 = true ∧
    (1 : Nat) ∈ (loadOrCreateHNSW none c8rows).1.nodes.map Prod.fst := by
  have h := hnsw_recovery
  have hne : c8rows ≠ [] := by unfold c8rows; exact List.cons_ne_nil _ _
  have hmem : ((1 : Nat), List.replicate 4096 (0 : Nat)) ∈ c8rows := by
    unfold c8rows; exact List.mem_cons_self _ _
  have hdim : (deserializeFloat32 (List.replicate 4096 (0 : Nat))).length = 1024 := by
    set_option maxRecDepth 8192 in decide
  exact ⟨h.1 ⟨[(9, [])]⟩ c8rows, h.2.1 c8rows hne,
    h.2.2.2 c8rows (1, List.replicate 4096 0) hmem hdim⟩

end FF
